import Mathlib

/-!
Verification model of the `mlog` syslog forwarding core
(`src/v0/syslog_handler.go` of `xenolog/slog`).

The Go code is shallowly embedded: buffers and lines are `List Char`
(Go byte slices holding text), machine integers are `Int`, a live network
connection is an opaque identifier `Nat`, and every effectful operation is
a pure function from an explicit proxy state to a result structure that
records the new state together with an event log (bytes written to the
connection, connections closed, whether the mutex was taken, how many times
the downstream renderer ran).  Standard-library behaviour the code leans on
(`bufio.ScanLines` with its `MaxScanTokenSize` limit, `bytes.Buffer`,
`net/url.Parse` with percent-decoding) is translated from its documented
semantics.  Failure of the socket operations is abstracted as oracles: a
flag for `SetWriteDeadline`, a per-call success predicate for `conn.Write`,
and a dialer function for `net.DialTimeout`.
-/

set_option autoImplicit false

namespace SlogModel

universe u

/-! ### `bufio` line scanning (`bufio.ScanLines` over the proxy buffer) -/

/-- Model of `bufio.dropCR`: drop a single trailing carriage return from a scanned line. -/
def dropCR (l : List Char) : List Char :=
  if l.getLast? = some '\r' then l.dropLast else l

/-- Token stream of `bufio.Scanner` with the default `ScanLines` split
function: tokens are the newline-delimited lines without their terminator
(a trailing carriage return is dropped too); at EOF a final non-terminated
chunk is returned as one last token.  `acc` holds the current line so far,
reversed. -/
def scanTokensAux : List Char → List Char → List (List Char)
  | [], acc => if acc = [] then [] else [dropCR acc.reverse]
  | c :: rest, acc =>
    if c = '\n' then dropCR acc.reverse :: scanTokensAux rest []
    else scanTokensAux rest (c :: acc)

/-- All tokens `scanner.Scan`/`scanner.Text` yields for a buffer content. -/
def scanTokens (cs : List Char) : List (List Char) := scanTokensAux cs []

/-- Split wire output into physical lines, each keeping its terminating
newline; a trailing non-terminated chunk is kept as a last frame.  Used only
to state properties about what reaches the wire. -/
def framesAux : List Char → List Char → List (List Char)
  | [], acc => if acc = [] then [] else [acc.reverse]
  | c :: rest, acc =>
    if c = '\n' then ('\n' :: acc).reverse :: framesAux rest []
    else framesAux rest (c :: acc)

/-- Physical newline-terminated frames of a wire byte stream. -/
def frames (cs : List Char) : List (List Char) := framesAux cs []

/-! ### Proxy state (`SyslogProxy` struct) -/

/-- State of a `SyslogProxy`.  `conn = none` models a nil connection
(disconnected); `some n` is an open connection handle with identity `n`.
The mutex and the stderr logger carry no state relevant to the claims. -/
structure SyslogProxy where
  buf : List Char
  lineProcessBufSize : Int
  priority : Int
  tag : List Char
  url : List Char
  conn : Option Nat
  useLocalTZ : Bool
  timeout : Int
deriving DecidableEq

/-- Model of `SyslogProxy.IsConnected`. -/
def SyslogProxy.IsConnected (s : SyslogProxy) : Bool := s.conn.isSome

/-! ### `ProcessLines` (the drain) -/

/-- Constant `bufio.MaxScanTokenSize`: the scanner's maximum token size.
A line of this many bytes or more (terminator excluded) cannot be scanned:
`scanner.Scan` stops with `ErrTooLong`, surfacing through `scanner.Err()`
as the `ErrSyslogProcessHandleResult` wrap. -/
def maxScanTokenSize : Nat := 65536

/-- Raw newline split of the buffer: each entry is one raw line (terminator
excluded, a carriage return still present) together with `some rest` — the
content after this line's terminator — or `none` for a final unterminated
line.  `acc` holds the current line reversed. -/
def splitLinesAux :
    List Char → List Char → List (List Char × Option (List Char))
  | [], acc => if acc = [] then [] else [(acc.reverse, none)]
  | c :: rest, acc =>
    if c = '\n' then (acc.reverse, some rest) :: splitLinesAux rest []
    else splitLinesAux rest (c :: acc)

/-- All raw lines of a buffer content, with their following content. -/
def splitLines (cs : List Char) : List (List Char × Option (List Char)) :=
  splitLinesAux cs []

/-- Result of the drain loop: success, a transform error propagated
verbatim (`return err` in the loop), a socket write failure
(`ErrSyslogWrite`-wrapped), the scanner's over-long-line failure
(`ErrSyslogProcessHandleResult`-wrapped), or the index-out-of-range panic
of `line[len(line)-1]` on an empty transformed line. -/
inductive LineRes (ε : Type u) where
  | ok : LineRes ε
  | userErr : ε → LineRes ε
  | writeErr : LineRes ε
  | procErr : LineRes ε
  | oobPanic : LineRes ε
deriving DecidableEq

/-- Drain result including the connection-check / write-deadline failure. -/
inductive DrainRes (ε : Type u) where
  | ok : DrainRes ε
  | connErr : DrainRes ε
  | userErr : ε → DrainRes ε
  | writeErr : DrainRes ε
  | procErr : DrainRes ε
  | oobPanic : DrainRes ε
deriving DecidableEq

/-- Lift the per-line loop result into the drain result. -/
def liftLineRes {ε : Type u} : LineRes ε → DrainRes ε
  | .ok => .ok
  | .userErr e => .userErr e
  | .writeErr => .writeErr
  | .procErr => .procErr
  | .oobPanic => .oobPanic

/-- The `conn.Write` calls one transformed line causes when all writes
succeed: the line itself, then a separate one-byte `"\n"` write when the
transformed line does not already end in the terminator. -/
def emitChunks (t : List Char) : List (List Char) :=
  if t.getLast? = some '\n' then [t] else [t, ['\n']]

/-- The `for scanner.Scan()` loop of `ProcessLines` over the raw line
split, with `wr i` the success of the i-th `conn.Write` call of this
drain.  A raw line of `maxScanTokenSize` or more bytes is the scanner's
`ErrTooLong`: the loop stops before transforming it, the error surfaces as
`procErr`, and the scanner has consumed exactly `maxScanTokenSize` bytes
of the offending line (its full read-ahead window).  An empty token
(after `dropCR`) is skipped.  A non-empty token goes through
`processFunc`; a transform error aborts with the error as-is.  The
transformed line is written (a failed write aborts with `writeErr`), and
`line[len(line)-1]` is read to decide whether to write a separate
trailing `"\n"` — on an empty transformed line that read is out of
bounds.  Returns the successful write chunks in order, the loop result,
and the remaining buffer content.  On the transform-error and
write-error aborts the remaining content is tracked at line granularity;
Go's scanner read-ahead may already have consumed more of it (no claim
consults the buffer after a failed drain). -/
def runLines {ε : Type u} (f : List Char → Except ε (List Char))
    (wr : Nat → Bool) :
    List (List Char × Option (List Char)) → Nat →
      List (List Char) × LineRes ε × List Char
  | [], _ => ([], .ok, [])
  | (raw, after) :: rest, widx =>
    if maxScanTokenSize ≤ raw.length then
      ([], .procErr,
        (raw ++ (match after with
          | some a => '\n' :: a
          | none => [])).drop maxScanTokenSize)
    else
      let remAfter := match after with | some a => a | none => []
      let l := dropCR raw
      if l = [] then runLines f wr rest widx
      else
        match f l with
        | .error e => ([], .userErr e, remAfter)
        | .ok t =>
          if wr widx then
            if t = [] then ([t], .oobPanic, remAfter)
            else if t.getLast? = some '\n' then
              let p := runLines f wr rest (widx + 1)
              (t :: p.1, p.2)
            else
              if wr (widx + 1) then
                let p := runLines f wr rest (widx + 2)
                (t :: ['\n'] :: p.1, p.2)
              else ([t], .writeErr, remAfter)
          else ([], .writeErr, remAfter)

/-- Outcome of `ProcessLines`: result, the successful `conn.Write` chunks
in order, and the proxy state afterwards. -/
structure DrainOut (ε : Type u) where
  res : DrainRes ε
  written : List (List Char)
  state : SyslogProxy

/-- Model of `SyslogProxy.ProcessLines`: fails with a connection error
when disconnected, touching nothing; `dl` is the success of the
`SetWriteDeadline` call, whose failure is the `ErrSyslogConnection` wrap
returned before the scanner is created; otherwise the scanner runs over
the buffer's lines with the write oracle `wr`.  The model assumes the
buffered content fits the scanner's read buffer, so a completed loop has
consumed the whole buffer. -/
def SyslogProxy.ProcessLines {ε : Type u} (s : SyslogProxy)
    (f : List Char → Except ε (List Char)) (dl : Bool) (wr : Nat → Bool) :
    DrainOut ε :=
  match s.conn with
  | none => ⟨.connErr, [], s⟩
  | some _ =>
    if dl then
      let p := runLines f wr (splitLines s.buf) 0
      ⟨liftLineRes p.2.1, p.1, { s with buf := p.2.2 }⟩
    else ⟨.connErr, [], s⟩

/-- The identity transform (used in the spec's concrete drain scenarios). -/
def idTransform : List Char → Except Unit (List Char) := fun l => .ok l

/-- The all-writes-succeed oracle: no socket write fails. -/
def wrOK : Nat → Bool := fun _ => true

/-! ### Constants and proxy construction (`NewSyslogProxy`) -/

/-- Constant `log/syslog.LOG_INFO`. -/
def LOG_INFO : Int := 6

/-- Constant `log/syslog.LOG_DEBUG`. -/
def LOG_DEBUG : Int := 7

/-- Constant `log/syslog.LOG_USER` (facility 1, shifted by 3). -/
def LOG_USER : Int := 8

/-- Constant `log/syslog.LOG_LOCAL7` (facility 23, shifted by 3). -/
def LOG_LOCAL7 : Int := 184

/-- Modelled from the spec: `InitialIOBufSize`, the fixed default size of the
intermediate IO buffer, defined outside `src/`; the exact value is out of
scope and no claim depends on it. -/
def InitialIOBufSize : Int := 4096

/-- Modelled from the spec: `InitialLineProcessBufSize`, the fixed default
line-processing buffer size, defined outside `src/`; the exact value is out
of scope and no claim depends on it. -/
def InitialLineProcessBufSize : Int := 65536

/-- Modelled from the spec: `defaultDialTimeout`, the default timeout
substituted for a zero timeout, defined outside `src/`; the exact value is
out of scope and no claim depends on it. -/
def defaultDialTimeout : Int := 5

/-- Model of `SyslogProxyOptions` (zero values mean "unset", as in Go). -/
structure SyslogProxyOptions where
  useLocalTZ : Bool
  priority : Int
  tag : List Char
  ioBufSize : Int
  lineProcessBufSize : Int
deriving DecidableEq

/-- Model of `NewSyslogProxy`.  A `none` options value stand for a nil options pointer;
`args0` is `os.Args[0]`, the program's invocation name.  The priority is
replaced by `LOG_INFO|LOG_USER` exactly when it lies outside the range
`0 .. LOG_LOCAL7|LOG_DEBUG`; an empty tag becomes `args0`.  The byte buffer
starts empty (the IO buffer size is only a capacity), no connection is
installed, and no destination is stored yet. -/
def NewSyslogProxy (opts : Option SyslogProxyOptions) (args0 : List Char) :
    SyslogProxy :=
  let o := opts.getD ⟨false, 0, [], 0, 0⟩
  let ioSize := if o.ioBufSize = 0 then InitialIOBufSize else o.ioBufSize
  let lpSize :=
    if o.lineProcessBufSize = 0 then InitialLineProcessBufSize
    else o.lineProcessBufSize
  let prio :=
    if o.priority < 0 ∨ o.priority > ((LOG_LOCAL7.toNat ||| LOG_DEBUG.toNat : Nat) : Int) then
      ((LOG_INFO.toNat ||| LOG_USER.toNat : Nat) : Int)
    else o.priority
  let tg := if o.tag = [] then args0 else o.tag
  let _ := ioSize
  { buf := []
    lineProcessBufSize := lpSize
    priority := prio
    tag := tg
    url := []
    conn := none
    useLocalTZ := o.useLocalTZ
    timeout := 0 }

/-! ### URL parsing (model of `net/url.Parse` as `Connect` uses it)

`Connect` only consults `u.Scheme`, `u.Host` and `u.Path`.  The model
translates `net/url.Parse` for that projection: an optional
`scheme:` prefix (first character a letter, then letters, digits, `+`,
`-`, `.`; lower-cased), then either `//authority` — the authority running
to the first `/`, `?` or `#`, with the host the part after the last `@`,
port-validated and percent-decoded in host mode — followed by a path
running to the first `?` or `#` and percent-decoded in path mode, or
(with no `//`) a rootful path, or an opaque remainder contributing
neither host nor path.  `none` is a parse error (invalid escape, invalid
port, missing bracket); inputs Go rejects earlier (control characters, a
colon in the first segment of a scheme-less URL) are collapsed into an
empty scheme, which `Connect` rejects through the same
`ErrSyslogURLparse` category.  The zone special-casing inside a
bracketed IPv6 host is not modelled. -/

/-- Parsed destination URL, restricted to the fields `Connect` reads. -/
structure URL where
  scheme : List Char
  host : List Char
  path : List Char
deriving DecidableEq

/-- Valid first character of a URL scheme. -/
def isSchemeStart (c : Char) : Bool := c.isAlpha

/-- Valid non-first character of a URL scheme. -/
def isSchemeChar (c : Char) : Bool :=
  c.isAlpha || c.isDigit || c = '+' || c = '-' || c = '.'

/-- Scan for a `scheme:` prefix; `acc` holds the candidate scheme reversed.
Returns the scheme (still in original case) and the rest after the colon. -/
def getSchemeAux : List Char → List Char → Option (List Char × List Char)
  | [], _ => none
  | c :: rest, acc =>
    if c = ':' then
      if acc = [] then none else some (acc.reverse, rest)
    else if (if acc = [] then isSchemeStart c else isSchemeChar c) then
      getSchemeAux rest (c :: acc)
    else none

/-- Model of the `net/url` scheme scan: the lower-cased scheme and the
remainder; an absent or malformed scheme yields `[]` and the whole input. -/
def getScheme (cs : List Char) : List Char × List Char :=
  match getSchemeAux cs [] with
  | some (sch, rest) => (sch.map Char.toLower, rest)
  | none => ([], cs)

/-- Character ending an authority component. -/
def endsAuthority (c : Char) : Bool := c = '/' || c = '?' || c = '#'

/-- Character starting a query or fragment (ends the path). -/
def endsPath (c : Char) : Bool := c = '?' || c = '#'

/-- The host of an authority: the part after the last `@` (userinfo
stripped), the whole authority when it has no `@`. -/
def hostOfAuthority (auth : List Char) : List Char :=
  (auth.reverse.takeWhile (fun c => c ≠ '@')).reverse

/-- Hexadecimal digit check (`net/url.ishex`). -/
def isHexDigit (c : Char) : Bool :=
  c.isDigit || (decide ('a' ≤ c) && decide (c ≤ 'f'))
    || (decide ('A' ≤ c) && decide (c ≤ 'F'))

/-- Hex digit value (`net/url.unhex`). -/
def hexVal (c : Char) : Nat :=
  if c.isDigit then c.toNat - '0'.toNat
  else if decide ('a' ≤ c) && decide (c ≤ 'f') then c.toNat - 'a'.toNat + 10
  else c.toNat - 'A'.toNat + 10

/-- Model of `net/url.unescape` in path mode: percent-decode each `%XY`
hex escape into its byte; a `%` not followed by two hex digits is an
invalid escape, a parse error. -/
def unescapePath : List Char → Option (List Char)
  | [] => some []
  | c :: rest =>
    if c = '%' then
      match rest with
      | c1 :: c2 :: rest2 =>
        if isHexDigit c1 && isHexDigit c2 then
          (unescapePath rest2).map
            (fun out => Char.ofNat (16 * hexVal c1 + hexVal c2) :: out)
        else none
      | _ => none
    else (unescapePath rest).map (fun out => c :: out)

/-- Model of `net/url.unescape` in host mode: like path mode, but an
escape of an ASCII byte (value below `0x80`) other than the literal `%25`
is a host error. -/
def unescapeHost : List Char → Option (List Char)
  | [] => some []
  | c :: rest =>
    if c = '%' then
      match rest with
      | c1 :: c2 :: rest2 =>
        if isHexDigit c1 && isHexDigit c2 then
          if decide (128 ≤ 16 * hexVal c1 + hexVal c2)
              || (decide (c1 = '2') && decide (c2 = '5')) then
            (unescapeHost rest2).map
              (fun out => Char.ofNat (16 * hexVal c1 + hexVal c2) :: out)
          else none
        else none
      | _ => none
    else (unescapeHost rest).map (fun out => c :: out)

/-- Model of `net/url.validOptionalPort`: empty, or a `:` followed by
decimal digits only. -/
def validOptionalPort : List Char → Bool
  | [] => true
  | ':' :: rest => rest.all (fun c => c.isDigit)
  | _ => false

/-- The suffix of a host starting at its last colon (the candidate
`:port`), or `[]` when the host has no colon. -/
def lastColonPort (h : List Char) : List Char :=
  let afterRev := h.reverse.takeWhile (fun c => c ≠ ':')
  if afterRev.length = h.length then [] else ':' :: afterRev.reverse

/-- Model of `net/url.parseHost`: for a bracketed IPv6 form the part
after the last `]` must be a valid optional port (a missing `]` is an
error); otherwise the part from the last `:` must be a valid optional
port; then the host is percent-decoded in host mode. -/
def parseHost (h : List Char) : Option (List Char) :=
  if h.head? = some '[' then
    let afterBr := h.reverse.takeWhile (fun c => c ≠ ']')
    if afterBr.length = h.length then none
    else if validOptionalPort afterBr.reverse then unescapeHost h else none
  else
    if validOptionalPort (lastColonPort h) then unescapeHost h else none

/-- The authority branch of `net/url.Parse`: given the scheme, the
authority slice and the remainder after it, validate and percent-decode
the host and percent-decode the path (cut at the first `?` or `#`). -/
def parseAfterAuthority (sch auth tail : List Char) : Option URL :=
  match parseHost (hostOfAuthority auth),
      unescapePath (tail.takeWhile (fun c => ¬ endsPath c)) with
  | some host, some path => some { scheme := sch, host := host, path := path }
  | _, _ => none

/-- Model of `net/url.Parse` restricted to scheme/host/path; `none` is a
parse error. -/
def parseURL (cs : List Char) : Option URL :=
  let p := getScheme cs
  let sch := p.1
  let rest := p.2
  if rest.take 2 = ['/', '/'] then
    let afterSlashes := rest.drop 2
    parseAfterAuthority sch
      (afterSlashes.takeWhile (fun c => ¬ endsAuthority c))
      (afterSlashes.dropWhile (fun c => ¬ endsAuthority c))
  else if sch = [] ∨ rest.head? = some '/' then
    match unescapePath (rest.takeWhile (fun c => ¬ endsPath c)) with
    | some path => some { scheme := sch, host := [], path := path }
    | none => none
  else
    some { scheme := sch, host := [], path := [] }

/-- Constant `allowedProto`: the three transport schemes `Connect` accepts. -/
def allowedProto : List (List Char) :=
  ["tcp".toList, "udp".toList, "unix".toList]

/-! ### `Connect` / `Disconnect` -/

/-- Result category of a `Connect` call: success, the
`ErrSyslogURLparse`-wrapped rejection (malformed URL or unsupported
scheme), or the `ErrSyslogConnection`-wrapped dial failure. -/
inductive ConnectRes where
  | ok : ConnectRes
  | urlParseErr : ConnectRes
  | connErr : ConnectRes
deriving DecidableEq

/-- Outcome of `Connect`: result, new proxy state, the connection handles
closed (by the `Disconnect` call under the lock), and the `(proto, addr)`
pair passed to `net.DialTimeout` when dialing was reached. -/
structure ConnectOut where
  res : ConnectRes
  state : SyslogProxy
  closed : List Nat
  dialed : Option (List Char × List Char)
deriving DecidableEq

/-- Build the normalized stored destination `proto://addr`
(`fmt.Sprintf("%s://%s", proto, addr)`). -/
def mkURL (proto addr : List Char) : List Char :=
  proto ++ ':' :: '/' :: '/' :: addr

/-- Model of `SyslogProxy.Connect`.  The dialer is passed in as an oracle
`dial proto addr timeout`, returning the new connection handle or `none`
on dial failure.  An empty destination string reuses the stored one; the
parsed destination is normalized and stored *before* dialing; a dial
failure leaves the connection untouched; on success the previous
connection (if any) is closed under the lock, the new one installed, and
the effective timeout stored. -/
def SyslogProxy.Connect (s : SyslogProxy) (url : List Char) (timeout : Int)
    (dial : List Char → List Char → Int → Option Nat) : ConnectOut :=
  let url := if url = [] then s.url else url
  match parseURL url with
  | none => ⟨.urlParseErr, s, [], none⟩
  | some u =>
    if u.scheme ∈ allowedProto then
      let proto := u.scheme
      let addr := if proto = "unix".toList then u.path else u.host
      let s1 := { s with url := mkURL proto addr }
      let timeout := if timeout = 0 then defaultDialTimeout else timeout
      match dial proto addr timeout with
      | none => ⟨.connErr, s1, [], some (proto, addr)⟩
      | some c =>
        ⟨.ok, { s1 with conn := some c, timeout := timeout },
          s.conn.toList, some (proto, addr)⟩
    else
      ⟨.urlParseErr, s, [], none⟩

/-- Model of `SyslogProxy.Disconnect`: close and clear the connection if present;
returns the new state and the handles closed. -/
def SyslogProxy.Disconnect (s : SyslogProxy) : SyslogProxy × List Nat :=
  match s.conn with
  | none => (s, [])
  | some c => ({ s with conn := none }, [c])

/-! ### Forwarding handler (`SyslogHandler`) -/

/-- The downstream `slog.Handler` capability as `SyslogHandler` consumes
it: report whether a level is enabled, and render a record to bytes that
land in the proxy buffer (or fail).  `slog.Level` is an `Int`; the record
type `α` and the render error type `ρ` are abstract. -/
structure SlogHandler (α ρ : Type u) where
  enabled : Int → Bool
  render : α → Except ρ (List Char)

/-- Modelled from the spec: `allowedLevels`, the fixed ordered list of
severities probed at construction, defined outside `src/`.  The spec fixes
the contract — the probe stops at the first level the downstream reports
enabled and that level is the lowest enabled one — so the list runs from
most verbose to most severe: Debug (-4), Info (0), Warn (4), Error (8). -/
def allowedLevels : List Int := [-4, 0, 4, 8]

/-- Modelled from the spec: `TrimTimestamp`, defined outside `src/`, strips
a leading timestamp token from a line and reports failure (which the
default line transform discards) when none is found; modelled as dropping a
leading digit-initiated token up to the first space, returning the line
unchanged otherwise. -/
def TrimTimestamp (l : List Char) : List Char × Bool :=
  match l with
  | [] => ([], false)
  | c :: _ =>
    if c.isDigit then
      match l.dropWhile (fun ch => ch ≠ ' ') with
      | _ :: tl => (tl, true)
      | [] => (l, false)
    else (l, false)

/-- The default line transform of `NewSyslogHandler`: trim the timestamp,
always succeed (an `unable to trim timestamp` failure is not an error). -/
def defaultLineProcessFunc {ε : Type u} : List Char → Except ε (List Char) :=
  fun line => .ok (TrimTimestamp line).1

/-- Model of `SyslogHandlerOptions`. -/
structure SyslogHandlerOptions (ε : Type u) where
  lineProcessFunc : Option (List Char → Except ε (List Char))

/-- Model of `SyslogHandler`: the wrapped downstream renderer, the level cached at
construction, and the per-line transform.  The shared proxy is passed to
`Handle` explicitly rather than stored, so that state flows visibly. -/
structure SyslogHandler (α ε ρ : Type u) where
  handler : SlogHandler α ρ
  level : Int
  lineProcessFunc : List Char → Except ε (List Char)

/-- Model of `NewSyslogHandler`: install the default line transform when none is
given, and cache the first level of `allowedLevels` the downstream reports
enabled (the Go loop with `break`); the level stays at its zero value `0`
when no probed level is enabled. -/
def NewSyslogHandler {α ε ρ : Type u} (h : SlogHandler α ρ)
    (opts : Option (SyslogHandlerOptions ε)) : SyslogHandler α ε ρ :=
  let lpf :=
    match opts with
    | some o =>
      match o.lineProcessFunc with
      | some f => f
      | none => defaultLineProcessFunc
    | none => defaultLineProcessFunc
  { handler := h
    level := (allowedLevels.find? h.enabled).getD 0
    lineProcessFunc := lpf }

/-- Model of `SyslogHandler.Enabled`: the check `level >= h.level` against the cached level. -/
def SyslogHandler.Enabled {α ε ρ : Type u} (h : SyslogHandler α ε ρ)
    (level : Int) : Bool :=
  h.level ≤ level

/-- Result of a `Handle` call: the not-connected error, the
`ErrSyslogHandle`-wrapped downstream render failure, or the drain's own
result passed through as-is. -/
inductive HandleRes (ε ρ : Type u) where
  | connErr : HandleRes ε ρ
  | handleErr : ρ → HandleRes ε ρ
  | drain : DrainRes ε → HandleRes ε ρ
deriving DecidableEq

/-- Outcome of `Handle`: result, proxy state afterwards, whether the
proxy's exclusion lock was taken, how many times the downstream renderer's
`Handle` ran, and the bytes written to the connection. -/
structure HandleOut (ε ρ : Type u) where
  res : HandleRes ε ρ
  state : SyslogProxy
  lockTaken : Bool
  renderCalls : Nat
  written : List (List Char)

/-- Model of `SyslogHandler.Handle`: while disconnected, fail with the connection
error before taking the lock and before invoking the downstream renderer;
otherwise, under the lock, render into the proxy buffer (a render failure
is wrapped and the drain skipped) and then drain with the handler's line
transform, returning the drain's result. -/
def SyslogHandler.Handle {α ε ρ : Type u} (h : SyslogHandler α ε ρ)
    (s : SyslogProxy) (r : α) (dl : Bool) (wr : Nat → Bool) :
    HandleOut ε ρ :=
  if s.IsConnected then
    match h.handler.render r with
    | .error e => ⟨.handleErr e, s, true, 1, []⟩
    | .ok bs =>
      let d := SyslogProxy.ProcessLines { s with buf := s.buf ++ bs }
        h.lineProcessFunc dl wr
      ⟨.drain d.res, d.state, true, 1, d.written⟩
  else
    ⟨.connErr, s, false, 0, []⟩

/-- A connected proxy holding the given buffered content, with connection
handle `0` and otherwise zeroed fields: the state reached after
construction, a successful connect, and renderer writes. -/
def connectedProxy (content : List Char) : SyslogProxy :=
  ⟨content, 0, 0, [], [], some 0, false, 0⟩

/-- A disconnected proxy holding the given buffered content. -/
def disconnectedProxy (content : List Char) : SyslogProxy :=
  ⟨content, 0, 0, [], [], none, false, 0⟩

example : scanTokens ("a\nb".toList) = [['a'], ['b']] := by decide
example : scanTokens ("a\nb\n".toList) = [['a'], ['b']] := by decide
example : scanTokens ("x\r\n\n".toList) = [['x'], []] := by decide
example : frames ("a\nb\n".toList) = [['a', '\n'], ['b', '\n']] := by decide

/-! ### Helper lemmas about the drain loop -/

/-- The transformed bytes of a line under an all-successful transform. -/
def okOut {ε : Type u} (f : List Char → Except ε (List Char))
    (l : List Char) : List Char :=
  match f l with
  | .ok t => t
  | .error _ => []

/-- A transformed line as it appears on the wire: unchanged when it already
ends in the terminator, with exactly one `'\n'` appended otherwise. -/
def withEOL (t : List Char) : List Char :=
  if t.getLast? = some '\n' then t else t ++ ['\n']

theorem emitChunks_flatten (t : List Char) :
    (emitChunks t).flatten = withEOL t := by
  unfold emitChunks withEOL
  split <;> simp

theorem flatten_map_emitChunks (g : List Char → List Char) :
    ∀ xs : List (List Char),
      ((xs.map (fun l => emitChunks (g l))).flatten).flatten =
        (xs.map (fun l => withEOL (g l))).flatten := by
  intro xs
  induction xs with
  | nil => rfl
  | cons x xs ih => simp [emitChunks_flatten, ih]

theorem liftLineRes_eq_oobPanic {ε : Type u} (r : LineRes ε) :
    liftLineRes r = .oobPanic ↔ r = .oobPanic := by
  cases r <;> simp [liftLineRes]

theorem splitLinesAux_tokens :
    ∀ (cs acc : List Char),
      (splitLinesAux cs acc).map (fun p => dropCR p.1) = scanTokensAux cs acc := by
  intro cs
  induction cs with
  | nil =>
    intro acc
    by_cases h : acc = [] <;> simp [splitLinesAux, scanTokensAux, h]
  | cons c rest ih =>
    intro acc
    by_cases h : c = '\n'
    · simp [splitLinesAux, scanTokensAux, h, ih]
    · simp [splitLinesAux, scanTokensAux, h, ih]

/-- The tokens the scanner yields are exactly the `dropCR`-cleaned raw
lines of the split. -/
theorem splitLines_tokens (cs : List Char) :
    (splitLines cs).map (fun p => dropCR p.1) = scanTokens cs :=
  splitLinesAux_tokens cs []

theorem ProcessLines_res_conn {ε : Type u} (s : SyslogProxy)
    (f : List Char → Except ε (List Char)) (wr : Nat → Bool) (c : Nat)
    (hc : s.conn = some c) :
    (s.ProcessLines f true wr).res =
      liftLineRes (runLines f wr (splitLines s.buf) 0).2.1 := by
  simp [SyslogProxy.ProcessLines, hc]

theorem ProcessLines_written_conn {ε : Type u} (s : SyslogProxy)
    (f : List Char → Except ε (List Char)) (wr : Nat → Bool) (c : Nat)
    (hc : s.conn = some c) :
    (s.ProcessLines f true wr).written =
      (runLines f wr (splitLines s.buf) 0).1 := by
  simp [SyslogProxy.ProcessLines, hc]

theorem runLines_allOk {ε : Type u} (f : List Char → Except ε (List Char))
    (wr : Nat → Bool) (hwr : ∀ i, wr i = true) :
    ∀ (entries : List (List Char × Option (List Char))) (widx : Nat),
      (∀ p ∈ entries, p.1.length < maxScanTokenSize) →
      (∀ p ∈ entries, dropCR p.1 ≠ [] →
        ∃ t, f (dropCR p.1) = .ok t ∧ t ≠ []) →
      (runLines f wr entries widx).2.1 = .ok ∧
      (runLines f wr entries widx).2.2 = [] ∧
      (runLines f wr entries widx).1 =
        (((entries.map (fun p => dropCR p.1)).filter (fun l => l ≠ [])).map
          (fun l => emitChunks (okOut f l))).flatten := by
  intro entries
  induction entries with
  | nil => intro widx _ _; exact ⟨rfl, rfl, rfl⟩
  | cons p rest ih =>
    intro widx hlim hok
    obtain ⟨raw, after⟩ := p
    have hnotle : ¬ maxScanTokenSize ≤ raw.length :=
      not_le.mpr (hlim _ (List.mem_cons_self _ _))
    have hlim' := fun q hq => hlim q (List.mem_cons_of_mem _ hq)
    have hok' := fun q hq => hok q (List.mem_cons_of_mem _ hq)
    by_cases hl : dropCR raw = []
    · obtain ⟨ih1, ih2, ih3⟩ := ih widx hlim' hok'
      refine ⟨?_, ?_, ?_⟩
      · simpa [runLines, hnotle, hl] using ih1
      · simpa [runLines, hnotle, hl] using ih2
      · simp [runLines, hnotle, hl, ih3]
    · obtain ⟨t, hft, htne⟩ := hok _ (List.mem_cons_self _ _) hl
      by_cases hend : t.getLast? = some '\n'
      · obtain ⟨ih1, ih2, ih3⟩ := ih (widx + 1) hlim' hok'
        rcases hrr : runLines f wr rest (widx + 1) with ⟨cs, r, res⟩
        rw [hrr] at ih1 ih2 ih3
        simp only at ih1 ih2 ih3
        refine ⟨?_, ?_, ?_⟩
        · simp [runLines, hnotle, hl, hft, htne, hwr widx, hend, hrr, ih1]
        · simp [runLines, hnotle, hl, hft, htne, hwr widx, hend, hrr, ih2]
        · simp [runLines, hnotle, hl, hft, htne, hwr widx, hend, hrr, ih3,
            okOut, emitChunks]
      · obtain ⟨ih1, ih2, ih3⟩ := ih (widx + 2) hlim' hok'
        rcases hrr : runLines f wr rest (widx + 2) with ⟨cs, r, res⟩
        rw [hrr] at ih1 ih2 ih3
        simp only at ih1 ih2 ih3
        refine ⟨?_, ?_, ?_⟩
        · simp [runLines, hnotle, hl, hft, htne, hwr widx, hwr (widx + 1),
            hend, hrr, ih1]
        · simp [runLines, hnotle, hl, hft, htne, hwr widx, hwr (widx + 1),
            hend, hrr, ih2]
        · simp [runLines, hnotle, hl, hft, htne, hwr widx, hwr (widx + 1),
            hend, hrr, ih3, okOut, emitChunks]

theorem runLines_res_ne_oobPanic {ε : Type u}
    (f : List Char → Except ε (List Char)) (wr : Nat → Bool) :
    ∀ (entries : List (List Char × Option (List Char))) (widx : Nat),
      (∀ l t, l ≠ [] → f l = .ok t → t ≠ []) →
      (runLines f wr entries widx).2.1 ≠ .oobPanic := by
  intro entries
  induction entries with
  | nil => intro widx _; simp [runLines]
  | cons p rest ih =>
    intro widx hf
    obtain ⟨raw, after⟩ := p
    by_cases hle : maxScanTokenSize ≤ raw.length
    · simp [runLines, hle]
    · by_cases hl : dropCR raw = []
      · simpa [runLines, hle, hl] using ih widx hf
      · cases hft : f (dropCR raw) with
        | error e => simp [runLines, hle, hl, hft]
        | ok t =>
          have htne : t ≠ [] := hf _ t hl hft
          by_cases hw : wr widx
          · by_cases hend : t.getLast? = some '\n'
            · rcases hrr : runLines f wr rest (widx + 1) with ⟨cs, r, res⟩
              have hres := ih (widx + 1) hf
              rw [hrr] at hres
              simp only at hres
              simp [runLines, hle, hl, hft, htne, hw, hend, hrr, hres]
            · by_cases hw2 : wr (widx + 1)
              · rcases hrr : runLines f wr rest (widx + 2) with ⟨cs, r, res⟩
                have hres := ih (widx + 2) hf
                rw [hrr] at hres
                simp only at hres
                simp [runLines, hle, hl, hft, htne, hw, hend, hw2, hrr, hres]
              · simp [runLines, hle, hl, hft, htne, hw, hend, hw2]
          · simp [runLines, hle, hl, hft, htne, hw]

theorem runLines_append_err {ε : Type u}
    (f : List Char → Except ε (List Char)) (wr : Nat → Bool)
    (hwr : ∀ i, wr i = true) (e : ε) :
    ∀ (entries : List (List Char × Option (List Char))) (widx : Nat)
      (pre : List (List Char)) (lk : List Char) (post : List (List Char)),
      (∀ p ∈ entries, p.1.length < maxScanTokenSize) →
      ((entries.map (fun p => dropCR p.1)).filter (fun l => l ≠ []))
        = pre ++ lk :: post →
      (∀ l ∈ pre, ∃ t, f l = .ok t ∧ t ≠ []) →
      f lk = .error e →
      (runLines f wr entries widx).2.1 = .userErr e ∧
      (runLines f wr entries widx).1 =
        (pre.map (fun l => emitChunks (okOut f l))).flatten := by
  intro entries
  induction entries with
  | nil =>
    intro widx pre lk post _ heq _ _
    simp at heq
  | cons p rest ih =>
    intro widx pre lk post hlim heq hpre herr
    obtain ⟨raw, after⟩ := p
    have hnotle : ¬ maxScanTokenSize ≤ raw.length :=
      not_le.mpr (hlim _ (List.mem_cons_self _ _))
    have hlim' := fun q hq => hlim q (List.mem_cons_of_mem _ hq)
    by_cases hl : dropCR raw = []
    · have heq' : ((rest.map (fun p => dropCR p.1)).filter
          (fun l => l ≠ [])) = pre ++ lk :: post := by
        simpa [hl] using heq
      obtain ⟨h1, h2⟩ := ih widx pre lk post hlim' heq' hpre herr
      constructor
      · simpa [runLines, hnotle, hl] using h1
      · simpa [runLines, hnotle, hl] using h2
    · have heq' : dropCR raw :: ((rest.map (fun p => dropCR p.1)).filter
          (fun l => l ≠ [])) = pre ++ lk :: post := by
        simpa [hl] using heq
      cases pre with
      | nil =>
        simp only [List.nil_append, List.cons.injEq] at heq'
        have hlk : lk ≠ [] := heq'.1 ▸ hl
        constructor
        · simp [runLines, hnotle, hl, heq'.1, hlk, herr]
        · simp [runLines, hnotle, hl, heq'.1, hlk, herr]
      | cons p0 pre' =>
        simp only [List.cons_append, List.cons.injEq] at heq'
        obtain ⟨hp0, heqrest⟩ := heq'
        obtain ⟨t, hft, htne⟩ := hpre p0 (List.mem_cons_self _ _)
        rw [← hp0] at hft
        have hpre' := fun l hmem => hpre l (List.mem_cons_of_mem _ hmem)
        by_cases hend : t.getLast? = some '\n'
        · obtain ⟨h1, h2⟩ := ih (widx + 1) pre' lk post hlim' heqrest
            hpre' herr
          rcases hrr : runLines f wr rest (widx + 1) with ⟨cs, r, res⟩
          rw [hrr] at h1 h2
          simp only at h1 h2
          constructor
          · simp [runLines, hnotle, hl, hft, htne, hwr widx, hend, hrr, h1]
          · simp [runLines, hnotle, hl, hft, htne, hwr widx, hend, hrr, h2,
              okOut, ← hp0, hft, emitChunks]
        · obtain ⟨h1, h2⟩ := ih (widx + 2) pre' lk post hlim' heqrest
            hpre' herr
          rcases hrr : runLines f wr rest (widx + 2) with ⟨cs, r, res⟩
          rw [hrr] at h1 h2
          simp only at h1 h2
          constructor
          · simp [runLines, hnotle, hl, hft, htne, hwr widx, hwr (widx + 1),
              hend, hrr, h1]
          · simp [runLines, hnotle, hl, hft, htne, hwr widx, hwr (widx + 1),
              hend, hrr, h2, okOut, ← hp0, hft, emitChunks]

/-! ### Claim C6: drain while disconnected -/

/-- C6: for every buffer content, every transform, and every behaviour of
the socket operations, `ProcessLines` on a disconnected proxy returns the
connection error, writes nothing, and consumes nothing from the buffer —
the whole state is unchanged. -/
theorem drain_disconnected_preserves_buffer {ε : Type u} (s : SyslogProxy)
    (f : List Char → Except ε (List Char)) (dl : Bool) (wr : Nat → Bool)
    (h : s.conn = none) :
    (s.ProcessLines f dl wr).res = .connErr ∧
    (s.ProcessLines f dl wr).written = [] ∧
    (s.ProcessLines f dl wr).state = s ∧
    (s.ProcessLines f dl wr).state.buf = s.buf := by
  simp [SyslogProxy.ProcessLines, h]

/-- Witness for C6 at a concrete disconnected proxy buffering `"a\nb\n"`. -/
theorem drain_disconnected_preserves_buffer_witness :
    ((disconnectedProxy ("a\nb\n".toList)).ProcessLines idTransform true
        wrOK).res = .connErr ∧
    ((disconnectedProxy ("a\nb\n".toList)).ProcessLines idTransform true
        wrOK).written = [] ∧
    ((disconnectedProxy ("a\nb\n".toList)).ProcessLines idTransform true
        wrOK).state = disconnectedProxy ("a\nb\n".toList) ∧
    ((disconnectedProxy ("a\nb\n".toList)).ProcessLines idTransform true
        wrOK).state.buf = "a\nb\n".toList :=
  drain_disconnected_preserves_buffer (disconnectedProxy ("a\nb\n".toList))
    idTransform true wrOK rfl

/-! ### Claim C8: handle while disconnected -/

/-- C8: a `Handle` call on a disconnected proxy fails immediately with the
connection error, without taking the proxy lock, without invoking the
downstream renderer, and without touching the state — whatever the socket
operations would have done. -/
theorem handle_disconnected_no_render {α ε ρ : Type u}
    (h : SyslogHandler α ε ρ) (s : SyslogProxy) (r : α) (dl : Bool)
    (wr : Nat → Bool) (hconn : s.conn = none) :
    (h.Handle s r dl wr).res = .connErr ∧
    (h.Handle s r dl wr).lockTaken = false ∧
    (h.Handle s r dl wr).renderCalls = 0 ∧
    (h.Handle s r dl wr).state = s ∧
    (h.Handle s r dl wr).written = [] := by
  simp [SyslogHandler.Handle, SyslogProxy.IsConnected, hconn]

/-- A concrete stub downstream renderer for witnesses: everything enabled,
rendering the fixed line `"x\n"`. -/
def stubRenderer : SlogHandler Unit Unit :=
  ⟨fun _ => true, fun _ => .ok ("x\n".toList)⟩

/-- Witness for C8: the stub renderer of a concretely constructed handler
is invoked zero times when the proxy is disconnected. -/
theorem handle_disconnected_no_render_witness :
    ((NewSyslogHandler (ε := Unit) stubRenderer none).Handle
        (disconnectedProxy []) () true wrOK).res = .connErr ∧
    ((NewSyslogHandler (ε := Unit) stubRenderer none).Handle
        (disconnectedProxy []) () true wrOK).lockTaken = false ∧
    ((NewSyslogHandler (ε := Unit) stubRenderer none).Handle
        (disconnectedProxy []) () true wrOK).renderCalls = 0 ∧
    ((NewSyslogHandler (ε := Unit) stubRenderer none).Handle
        (disconnectedProxy []) () true wrOK).state = disconnectedProxy [] ∧
    ((NewSyslogHandler (ε := Unit) stubRenderer none).Handle
        (disconnectedProxy []) () true wrOK).written = [] :=
  handle_disconnected_no_render (NewSyslogHandler stubRenderer none)
    (disconnectedProxy []) () true wrOK rfl

/-! ### Claim C1: the trailing partial line is not held back -/

/-- C1 counterexample: draining a connected proxy whose buffer is `"a\nb"`
(no trailing terminator) transmits the partial line `"b"` too — the wire
carries `"a\nb\n"`, the frame `"b\n"` included — and leaves the buffer
empty, not holding `"b"` back for the next drain. -/
theorem drain_transmits_trailing_line :
    ((connectedProxy ("a\nb".toList)).ProcessLines idTransform true
        wrOK).written.flatten = "a\nb\n".toList ∧
    "b\n".toList ∈
      frames ((connectedProxy ("a\nb".toList)).ProcessLines idTransform true
        wrOK).written.flatten ∧
    ((connectedProxy ("a\nb".toList)).ProcessLines idTransform true
        wrOK).state.buf = [] ∧
    ((connectedProxy ("a\nb".toList)).ProcessLines idTransform true
        wrOK).state.buf ≠ "b".toList := by
  decide

/-- C1 amended: on a connected proxy whose lines are all within the
scanner's token limit, with the write deadline set and every socket write
succeeding, a drain consumes the buffer entirely and forwards every
non-empty scanned line — a trailing non-terminated line included,
`bufio.ScanLines` returning it as a final token — each normalized to end
in one terminator; nothing is retained for a later drain.  (Stated for
transforms that succeed with non-empty output, the non-panicking
regime.) -/
theorem drain_forwards_all_lines {ε : Type u} (s : SyslogProxy)
    (f : List Char → Except ε (List Char)) (wr : Nat → Bool)
    (hconn : s.IsConnected = true) (hw : ∀ i, wr i = true)
    (hlim : ∀ p ∈ splitLines s.buf, p.1.length < maxScanTokenSize)
    (hok : ∀ l ∈ scanTokens s.buf, l ≠ [] → ∃ t, f l = .ok t ∧ t ≠ []) :
    (s.ProcessLines f true wr).res = .ok ∧
    (s.ProcessLines f true wr).state.buf = [] ∧
    (s.ProcessLines f true wr).written.flatten =
      (((scanTokens s.buf).filter (fun l => l ≠ [])).map
        (fun l => withEOL (okOut f l))).flatten := by
  obtain ⟨c, hc⟩ := Option.isSome_iff_exists.mp hconn
  have htok := splitLines_tokens s.buf
  have hok' : ∀ p ∈ splitLines s.buf, dropCR p.1 ≠ [] →
      ∃ t, f (dropCR p.1) = .ok t ∧ t ≠ [] := by
    intro p hp hne
    exact hok _ (htok ▸ List.mem_map_of_mem _ hp) hne
  obtain ⟨h1, h2, h3⟩ := runLines_allOk f wr hw (splitLines s.buf) 0
    hlim hok'
  refine ⟨?_, ?_, ?_⟩
  · simp [SyslogProxy.ProcessLines, hc, h1, liftLineRes]
  · simp [SyslogProxy.ProcessLines, hc, h2]
  · simp only [SyslogProxy.ProcessLines, hc, if_true]
    rw [h3, htok]
    exact flatten_map_emitChunks (okOut f) _

/-- Witness for C1 amended at the buffer `"a\nb"` with the identity
transform. -/
theorem drain_forwards_all_lines_witness :
    ((connectedProxy ("a\nb".toList)).ProcessLines idTransform true
        wrOK).res = .ok ∧
    ((connectedProxy ("a\nb".toList)).ProcessLines idTransform true
        wrOK).state.buf = [] ∧
    ((connectedProxy ("a\nb".toList)).ProcessLines idTransform true
        wrOK).written.flatten
      = (((scanTokens ("a\nb".toList)).filter (fun l => l ≠ [])).map
          (fun l => withEOL (okOut idTransform l))).flatten :=
  drain_forwards_all_lines (connectedProxy ("a\nb".toList)) idTransform wrOK
    rfl (fun _ => rfl) (by decide) (fun l _ hl => ⟨l, rfl, hl⟩)

/-! ### Claim C4: empty transformed line panics -/

/-- C4: the append-terminator step indexes `line[len(line)-1]` with no
emptiness guard, so the drain is safe only under the precondition that the
transform keeps every non-empty line non-empty: a transform returning an
empty slice on a non-empty line drives the index out of bounds — a panic,
not a returned error — while under the precondition no drain panics,
whatever the deadline, the writes or the line sizes do. -/
theorem drain_empty_transform_out_of_bounds :
    ((connectedProxy ("a\n".toList)).ProcessLines
        (fun _ => (.ok [] : Except Unit (List Char))) true wrOK).res
      = .oobPanic ∧
    ∀ (ε : Type) (s : SyslogProxy) (f : List Char → Except ε (List Char))
      (dl : Bool) (wr : Nat → Bool),
      (∀ l t, l ≠ [] → f l = .ok t → t ≠ []) →
      (s.ProcessLines f dl wr).res ≠ .oobPanic := by
  constructor
  · decide
  · intro ε s f dl wr hf
    cases hc : s.conn with
    | none => simp [SyslogProxy.ProcessLines, hc]
    | some c =>
      cases dl with
      | false => simp [SyslogProxy.ProcessLines, hc]
      | true =>
        have hne := runLines_res_ne_oobPanic f wr (splitLines s.buf) 0
          (fun l t hl hft => hf l t hl hft)
        simp only [SyslogProxy.ProcessLines, hc, if_true]
        exact fun hcon => hne ((liftLineRes_eq_oobPanic _).mp hcon)

/-- Witness for C4: the empty-output transform panics on buffer `"a\n"`,
while the identity transform (non-emptiness preserving) does not. -/
theorem drain_empty_transform_out_of_bounds_witness :
    ((connectedProxy ("a\n".toList)).ProcessLines
        (fun _ => (.ok [] : Except Unit (List Char))) true wrOK).res
      = .oobPanic ∧
    ((connectedProxy ("a\n".toList)).ProcessLines idTransform true
        wrOK).res ≠ .oobPanic :=
  ⟨drain_empty_transform_out_of_bounds.1,
    drain_empty_transform_out_of_bounds.2 Unit
      (connectedProxy ("a\n".toList)) idTransform true wrOK
      (fun l t hl hft => by
        simp only [idTransform, Except.ok.injEq] at hft
        exact hft ▸ hl)⟩

/-! ### Claim C5: transform error and the drain's other error paths -/

/-- The transform used by the C5 theorems: fail on the line `"b"`, pass
everything else through. -/
def failOnB : List Char → Except Unit (List Char) :=
  fun l => if l = "b".toList then .error () else .ok l

/-- A raw line at the scanner's token-size limit. -/
def longLine : List Char := List.replicate maxScanTokenSize 'a'

theorem longLine_no_newline : ∀ c ∈ longLine, c ≠ '\n' := by
  intro c hc
  rw [List.eq_of_mem_replicate hc]
  decide

theorem splitLinesAux_split :
    ∀ (u r acc : List Char), (∀ c ∈ u, c ≠ '\n') →
      splitLinesAux (u ++ '\n' :: r) acc =
        ((acc.reverse ++ u), some r) :: splitLinesAux r [] := by
  intro u
  induction u with
  | nil => intro r acc _; simp [splitLinesAux]
  | cons c u ih =>
    intro r acc hfree
    have hc : c ≠ '\n' := hfree c (List.mem_cons_self _ _)
    have hu := fun x hx => hfree x (List.mem_cons_of_mem _ hx)
    simp only [List.cons_append, splitLinesAux, if_neg hc, List.append_eq]
    rw [ih r (c :: acc) hu]
    simp

/-- C5 counterexample: on a buffer whose first line reaches the scanner's
64 KiB token limit, with a transform that fails on the second non-empty
line `"b"`, the drain does not return the transform's error with the
earlier line written — the scanner stops first, the transform never runs,
nothing is written, and the result is the
`ErrSyslogProcessHandleResult`-wrapped processing error. -/
theorem drain_long_line_masks_transform_error :
    ((connectedProxy (longLine ++ "\nb\nc\n".toList)).ProcessLines failOnB
        true wrOK).res = .procErr ∧
    ((connectedProxy (longLine ++ "\nb\nc\n".toList)).ProcessLines failOnB
        true wrOK).written = [] ∧
    ((connectedProxy (longLine ++ "\nb\nc\n".toList)).ProcessLines failOnB
        true wrOK).res ≠ .userErr () := by
  have h0 : longLine ++ "\nb\nc\n".toList
      = longLine ++ '\n' :: ("b\nc\n".toList) := rfl
  have hsplit : splitLines (longLine ++ "\nb\nc\n".toList)
      = (longLine, some ("b\nc\n".toList))
        :: splitLinesAux ("b\nc\n".toList) [] := by
    unfold splitLines
    rw [h0, splitLinesAux_split longLine _ [] longLine_no_newline]
    simp
  have hge : maxScanTokenSize ≤ longLine.length := by
    simp [longLine]
  have hbuf : (connectedProxy (longLine ++ "\nb\nc\n".toList)).buf
      = longLine ++ "\nb\nc\n".toList := rfl
  have hr1 : (runLines failOnB wrOK
      ((longLine, some ("b\nc\n".toList))
        :: splitLinesAux ("b\nc\n".toList) []) 0).2.1
      = LineRes.procErr := by
    unfold runLines
    rw [if_pos hge]
  have hw1 : (runLines failOnB wrOK
      ((longLine, some ("b\nc\n".toList))
        :: splitLinesAux ("b\nc\n".toList) []) 0).1 = [] := by
    unfold runLines
    rw [if_pos hge]
  have hres : ((connectedProxy (longLine ++ "\nb\nc\n".toList)).ProcessLines
      failOnB true wrOK).res = .procErr := by
    rw [ProcessLines_res_conn _ failOnB wrOK 0 rfl, hbuf, hsplit, hr1]
    rfl
  have hwrit : ((connectedProxy
      (longLine ++ "\nb\nc\n".toList)).ProcessLines failOnB true
      wrOK).written = [] := by
    rw [ProcessLines_written_conn _ failOnB wrOK 0 rfl, hbuf, hsplit, hw1]
  exact ⟨hres, hwrit, by rw [hres]; decide⟩

/-- C5 amended: on a buffer whose lines are within the scanner's token
limit and a run whose socket writes succeed, when the transform fails on
the k-th non-empty line the drain returns exactly that error unwrapped
(`userErr e`, not one of the wrapped error categories), the writes
performed are exactly those of the lines before the k-th — already on the
connection, not rolled back — and no line at or after the k-th is ever
written. -/
theorem drain_transform_error_aborts {ε : Type u} (s : SyslogProxy)
    (f : List Char → Except ε (List Char)) (wr : Nat → Bool)
    (pre post : List (List Char)) (lk : List Char) (e : ε)
    (hconn : s.IsConnected = true) (hw : ∀ i, wr i = true)
    (hlim : ∀ p ∈ splitLines s.buf, p.1.length < maxScanTokenSize)
    (htoks : (scanTokens s.buf).filter (fun l => l ≠ []) = pre ++ lk :: post)
    (hpre : ∀ l ∈ pre, ∃ t, f l = .ok t ∧ t ≠ [])
    (herr : f lk = .error e) :
    (s.ProcessLines f true wr).res = .userErr e ∧
    (s.ProcessLines f true wr).written =
      (pre.map (fun l => emitChunks (okOut f l))).flatten := by
  obtain ⟨c, hc⟩ := Option.isSome_iff_exists.mp hconn
  have heq : ((splitLines s.buf).map (fun p => dropCR p.1)).filter
      (fun l => l ≠ []) = pre ++ lk :: post := by
    rw [splitLines_tokens]
    exact htoks
  obtain ⟨h1, h2⟩ := runLines_append_err f wr hw e (splitLines s.buf) 0
    pre lk post hlim heq hpre herr
  constructor
  · simp [SyslogProxy.ProcessLines, hc, h1, liftLineRes]
  · simp [SyslogProxy.ProcessLines, hc, h2]

/-- Witness for C5 amended: on the three-line buffer `"a\nb\nc\n"` with a
transform failing on line 2, line 1 (and its terminator) is written, the
transform's error comes back unwrapped, and line 3 is never written. -/
theorem drain_transform_error_aborts_witness :
    ((connectedProxy ("a\nb\nc\n".toList)).ProcessLines failOnB true
        wrOK).res = .userErr () ∧
    ((connectedProxy ("a\nb\nc\n".toList)).ProcessLines failOnB true
        wrOK).written = [['a'], ['\n']] := by
  have h := drain_transform_error_aborts (connectedProxy ("a\nb\nc\n".toList))
    failOnB wrOK [['a']] [['c']] ['b'] () rfl (fun _ => rfl) (by decide)
    (by decide)
    (by
      intro l hl
      simp only [List.mem_singleton] at hl
      subst hl
      exact ⟨['a'], rfl, by decide⟩)
    rfl
  exact ⟨h.1, h.2.trans (by decide)⟩

/-! ### Claim C7: exactly one terminated frame per forwarded line -/

theorem framesAux_split (r : List Char) :
    ∀ (u acc : List Char), (∀ c ∈ u, c ≠ '\n') →
      framesAux (u ++ '\n' :: r) acc =
        (acc.reverse ++ u ++ ['\n']) :: framesAux r [] := by
  intro u
  induction u with
  | nil => intro acc _; simp [framesAux]
  | cons c u ih =>
    intro acc hfree
    have hc : c ≠ '\n' := hfree c (List.mem_cons_self _ _)
    have hu := fun x hx => hfree x (List.mem_cons_of_mem _ hx)
    simp only [List.cons_append, framesAux, if_neg hc, List.append_eq]
    rw [ih (c :: acc) hu]
    simp

theorem frames_flatten_of_terminated :
    ∀ ts : List (List Char),
      (∀ t ∈ ts, ∃ u, t = u ++ ['\n'] ∧ ∀ c ∈ u, c ≠ '\n') →
      frames ts.flatten = ts := by
  intro ts
  induction ts with
  | nil => intro _; rfl
  | cons t ts ih =>
    intro hall
    obtain ⟨u, hu, hfree⟩ := hall t (List.mem_cons_self _ _)
    have hts := ih (fun x hx => hall x (List.mem_cons_of_mem _ hx))
    subst hu
    show framesAux ((u ++ ['\n']) ++ ts.flatten) [] = _
    rw [List.append_assoc, List.singleton_append, framesAux_split _ u [] hfree]
    simp [frames] at hts
    simp [hts]

theorem withEOL_terminated (t : List Char) (ht : t ≠ [])
    (hfree : ∀ c ∈ t.dropLast, c ≠ '\n') :
    ∃ u, withEOL t = u ++ ['\n'] ∧ ∀ c ∈ u, c ≠ '\n' := by
  unfold withEOL
  by_cases hl : t.getLast? = some '\n'
  · rw [if_pos hl]
    refine ⟨t.dropLast, ?_, hfree⟩
    have hsplit := List.dropLast_append_getLast ht
    rw [List.getLast?_eq_getLast t ht] at hl
    simp only [Option.some.injEq] at hl
    rw [hl] at hsplit
    exact hsplit.symm
  · rw [if_neg hl]
    refine ⟨t, rfl, ?_⟩
    intro c hc
    have hsplit := List.dropLast_append_getLast ht
    rw [← hsplit] at hc
    rcases List.mem_append.mp hc with h | h
    · exact hfree c h
    · have hcl : c = t.getLast ht := by simpa using h
      intro he
      apply hl
      rw [List.getLast?_eq_getLast t ht, ← hcl, he]

/-- C7 counterexample: when the separate terminator write fails
(`wr 1 = false`), the already-forwarded record stays on the wire as a
non-terminated frame and the drain returns the write error — the claimed
one-terminated-line-per-record wire guarantee does not survive a write
failure. -/
theorem drain_write_failure_unterminated_frame :
    ((connectedProxy ("a\n".toList)).ProcessLines idTransform true
        (fun i => decide (i = 0))).res = .writeErr ∧
    ((connectedProxy ("a\n".toList)).ProcessLines idTransform true
        (fun i => decide (i = 0))).written = [['a']] ∧
    frames (((connectedProxy ("a\n".toList)).ProcessLines idTransform true
        (fun i => decide (i = 0))).written.flatten) = [['a']] ∧
    (['a'] : List Char).getLast? ≠ some '\n' := by
  decide

/-- C7 amended: the concrete two-frame drain of `"a\nb\n"`, and the
general law for runs whose socket writes all succeed and whose lines are
within the scanner's token limit: the wire's frame list is exactly one
terminated frame per non-empty line, the terminator appended separately
whenever the transformed line (itself free of interior newlines) lacks
it. -/
theorem drain_one_frame_per_line :
    (frames ((connectedProxy ("a\nb\n".toList)).ProcessLines
          idTransform true wrOK).written.flatten
        = ["a\n".toList, "b\n".toList] ∧
      ((connectedProxy ("a\nb\n".toList)).ProcessLines
          idTransform true wrOK).written.flatten = "a\nb\n".toList ∧
      ((connectedProxy ("a\nb\n".toList)).ProcessLines
          idTransform true wrOK).state.buf = []) ∧
    ∀ (ε : Type) (s : SyslogProxy) (f : List Char → Except ε (List Char))
      (wr : Nat → Bool),
      s.IsConnected = true →
      (∀ i, wr i = true) →
      (∀ p ∈ splitLines s.buf, p.1.length < maxScanTokenSize) →
      (∀ l ∈ scanTokens s.buf, l ≠ [] →
        ∃ t, f l = .ok t ∧ t ≠ [] ∧ ∀ c ∈ t.dropLast, c ≠ '\n') →
      frames (s.ProcessLines f true wr).written.flatten =
        ((scanTokens s.buf).filter (fun l => l ≠ [])).map
          (fun l => withEOL (okOut f l)) := by
  constructor
  · exact ⟨by decide, by decide, by decide⟩
  · intro ε s f wr hconn hw hlim hok
    obtain ⟨c, hc⟩ := Option.isSome_iff_exists.mp hconn
    have htokrel := splitLines_tokens s.buf
    have hok' : ∀ p ∈ splitLines s.buf, dropCR p.1 ≠ [] →
        ∃ t, f (dropCR p.1) = .ok t ∧ t ≠ [] := by
      intro p hp hne
      obtain ⟨t, h1, h2, _⟩ :=
        hok _ (htokrel ▸ List.mem_map_of_mem _ hp) hne
      exact ⟨t, h1, h2⟩
    obtain ⟨_, _, h3⟩ := runLines_allOk f wr hw (splitLines s.buf) 0
      hlim hok'
    have hwire : (s.ProcessLines f true wr).written.flatten =
        (((scanTokens s.buf).filter (fun l => l ≠ [])).map
          (fun l => withEOL (okOut f l))).flatten := by
      simp only [SyslogProxy.ProcessLines, hc, if_true]
      rw [h3, htokrel]
      exact flatten_map_emitChunks (okOut f) _
    rw [hwire]
    apply frames_flatten_of_terminated
    intro x hx
    simp only [List.mem_map] at hx
    obtain ⟨l, hl, hxl⟩ := hx
    have hlmem := (List.mem_filter.mp hl).1
    have hlne : l ≠ [] := by simpa using (List.mem_filter.mp hl).2
    obtain ⟨t, hft, htne, hfree⟩ := hok l hlmem hlne
    have hout : okOut f l = t := by simp [okOut, hft]
    rw [← hxl, hout]
    exact withEOL_terminated t htne hfree

/-- Witness for C7 amended's general law at the buffer `"x"` (one
non-terminated line) with the identity transform: the wire carries exactly
the frame `"x\n"`. -/
theorem drain_one_frame_per_line_witness :
    frames ((connectedProxy ("x".toList)).ProcessLines idTransform true
        wrOK).written.flatten =
      ((scanTokens ("x".toList)).filter (fun l => l ≠ [])).map
        (fun l => withEOL (okOut idTransform l)) := by
  apply drain_one_frame_per_line.2 Unit (connectedProxy ("x".toList))
    idTransform wrOK rfl (fun _ => rfl) (by decide)
  intro l hl hlne
  have hx : l = ['x'] := by
    have hscan : scanTokens ("x".toList) = [['x']] := by decide
    rw [show (connectedProxy ("x".toList)).buf = "x".toList from rfl,
      hscan] at hl
    simpa using hl
  subst hx
  exact ⟨['x'], rfl, by decide, by decide⟩

/-! ### Claim C3: constructor defaults for priority and tag -/

/-- C3 counterexample: constructing a proxy with nil options (so with the
zero-valued, "unset" priority) yields priority `0`
(`LOG_EMERG|LOG_KERN`), not the `LOG_INFO|LOG_USER` default `14`; the tag,
by contrast, does default to the invocation name. -/
theorem newSyslogProxy_zero_priority_kept :
    (NewSyslogProxy none ("prog".toList)).priority = 0 ∧
    (NewSyslogProxy none ("prog".toList)).priority ≠
      ((LOG_INFO.toNat ||| LOG_USER.toNat : Nat) : Int) ∧
    (NewSyslogProxy none ("prog".toList)).tag = "prog".toList := by
  decide

/-- C3 amended: the priority is replaced by the `LOG_INFO|LOG_USER` default
exactly when it lies outside the valid range
`0 .. LOG_LOCAL7|LOG_DEBUG = 191` — the zero value is in range and is kept
— and an unset (empty) tag defaults to the program's invocation name.  The
constructed proxy starts disconnected with an empty buffer. -/
theorem newSyslogProxy_defaults (o : SyslogProxyOptions) (args0 : List Char) :
    (NewSyslogProxy (some o) args0).priority =
      (if o.priority < 0 ∨ 191 < o.priority then 14 else o.priority) ∧
    (NewSyslogProxy (some o) args0).tag =
      (if o.tag = [] then args0 else o.tag) ∧
    (NewSyslogProxy (some o) args0).conn = none ∧
    (NewSyslogProxy (some o) args0).buf = [] := by
  have h191 : ((LOG_LOCAL7.toNat ||| LOG_DEBUG.toNat : Nat) : Int) = 191 := by
    decide
  have h14 : ((LOG_INFO.toNat ||| LOG_USER.toNat : Nat) : Int) = 14 := by
    decide
  refine ⟨?_, ?_, rfl, rfl⟩
  · simp only [NewSyslogProxy, Option.getD_some]
    rw [h191, h14]
  · simp [NewSyslogProxy]

/-! ### Claim C2: the cached level and the `Enabled` gate -/

theorem allowedLevels_ge_neg4 : ∀ l ∈ allowedLevels, (-4 : Int) ≤ l := by
  decide

/-- C2: the level cached by `NewSyslogHandler` is the lowest probed level
the downstream reports enabled at construction — it belongs to the probe
list, the downstream is enabled at it, and it is `≤` every enabled probed
level — or stays at the zero default when the downstream enables none of
them; `Enabled level` holds exactly for `level ≥` that cached level; and
the gate is insensitive to any later downstream policy, which it never
consults. -/
theorem enabled_matches_construction_level {α ρ : Type u}
    (h : SlogHandler α ρ) (level : Int) :
    (((NewSyslogHandler (ε := PUnit) h none).level ∈ allowedLevels ∧
        h.enabled (NewSyslogHandler (ε := PUnit) h none).level = true ∧
        ∀ l ∈ allowedLevels, h.enabled l = true →
          (NewSyslogHandler (ε := PUnit) h none).level ≤ l) ∨
      ((∀ l ∈ allowedLevels, h.enabled l = false) ∧
        (NewSyslogHandler (ε := PUnit) h none).level = 0)) ∧
    ((NewSyslogHandler (ε := PUnit) h none).Enabled level = true ↔
      (NewSyslogHandler (ε := PUnit) h none).level ≤ level) ∧
    ∀ (p : Int → Bool) (g : α → Except ρ (List Char)),
      SyslogHandler.Enabled
          { NewSyslogHandler (ε := PUnit) h none with handler := ⟨p, g⟩ }
          level
        = (NewSyslogHandler (ε := PUnit) h none).Enabled level := by
  refine ⟨?_, ?_, fun p g => rfl⟩
  · by_cases h4 : h.enabled (-4)
    · left
      have hl : (NewSyslogHandler (ε := PUnit) h none).level = -4 := by
        simp [NewSyslogHandler, allowedLevels, List.find?, h4]
      refine ⟨by rw [hl]; decide, by rw [hl]; exact h4, ?_⟩
      intro l hml _
      rw [hl]
      exact allowedLevels_ge_neg4 l hml
    · rw [Bool.not_eq_true] at h4
      by_cases h0 : h.enabled 0
      · left
        have hl : (NewSyslogHandler (ε := PUnit) h none).level = 0 := by
          simp [NewSyslogHandler, allowedLevels, List.find?, h4, h0]
        refine ⟨by rw [hl]; decide, by rw [hl]; exact h0, ?_⟩
        intro l hml hen
        rw [hl]
        simp only [allowedLevels, List.mem_cons, List.not_mem_nil, or_false] at hml
        rcases hml with rfl | rfl | rfl | rfl
        · rw [h4] at hen; exact absurd hen (by decide)
        · decide
        · decide
        · decide
      · rw [Bool.not_eq_true] at h0
        by_cases hw : h.enabled 4
        · left
          have hl : (NewSyslogHandler (ε := PUnit) h none).level = 4 := by
            simp [NewSyslogHandler, allowedLevels, List.find?, h4, h0, hw]
          refine ⟨by rw [hl]; decide, by rw [hl]; exact hw, ?_⟩
          intro l hml hen
          rw [hl]
          simp only [allowedLevels, List.mem_cons, List.not_mem_nil, or_false] at hml
          rcases hml with rfl | rfl | rfl | rfl
          · rw [h4] at hen; exact absurd hen (by decide)
          · rw [h0] at hen; exact absurd hen (by decide)
          · decide
          · decide
        · rw [Bool.not_eq_true] at hw
          by_cases he : h.enabled 8
          · left
            have hl : (NewSyslogHandler (ε := PUnit) h none).level = 8 := by
              simp [NewSyslogHandler, allowedLevels, List.find?, h4, h0, hw,
                he]
            refine ⟨by rw [hl]; decide, by rw [hl]; exact he, ?_⟩
            intro l hml hen
            rw [hl]
            simp only [allowedLevels, List.mem_cons, List.not_mem_nil,
              or_false] at hml
            rcases hml with rfl | rfl | rfl | rfl
            · rw [h4] at hen; exact absurd hen (by decide)
            · rw [h0] at hen; exact absurd hen (by decide)
            · rw [hw] at hen; exact absurd hen (by decide)
            · decide
          · rw [Bool.not_eq_true] at he
            right
            constructor
            · intro l hml
              simp only [allowedLevels, List.mem_cons, List.not_mem_nil,
                or_false] at hml
              rcases hml with rfl | rfl | rfl | rfl
              · exact h4
              · exact h0
              · exact hw
              · exact he
            · simp [NewSyslogHandler, allowedLevels, List.find?, h4, h0, hw,
                he]
  · simp [SyslogHandler.Enabled]

/-- A stub downstream renderer enabled from level 4 (Warn) upward. -/
def warnRenderer : SlogHandler PUnit PUnit :=
  ⟨fun l => decide (4 ≤ l), fun _ => .ok []⟩

/-- Witness for C2 at a downstream enabled from Warn upward: the
construction-time gate admits level 5 and rejects level 3. -/
theorem enabled_matches_construction_level_witness :
    (NewSyslogHandler (ε := PUnit) warnRenderer none).Enabled 5 = true ∧
    (NewSyslogHandler (ε := PUnit) warnRenderer none).Enabled 3 = false := by
  constructor
  · exact (enabled_matches_construction_level warnRenderer 5).2.1.mpr
      (by decide)
  · have hiff := (enabled_matches_construction_level warnRenderer 3).2.1
    rw [← Bool.not_eq_true]
    intro hc
    exact absurd (hiff.mp hc) (by decide)

/-! ### Claim C10: destination normalization and reuse -/

theorem head?_dropWhile_false {p : Char → Bool} :
    ∀ (l : List Char) (c : Char),
      (l.dropWhile p).head? = some c → p c = false := by
  intro l
  induction l with
  | nil => intro c hc; simp [List.dropWhile] at hc
  | cons a l ih =>
    intro c hc
    by_cases hp : p a
    · rw [List.dropWhile_cons_of_pos hp] at hc
      exact ih c hc
    · rw [List.dropWhile_cons_of_neg hp] at hc
      simp only [List.head?_cons, Option.some.injEq] at hc
      subst hc
      rw [Bool.not_eq_true] at hp
      exact hp

theorem unescapePath_cons (c : Char) (l : List Char) (hc : ¬ c = '%') :
    unescapePath (c :: l) = (unescapePath l).map (fun out => c :: out) := by
  conv_lhs => rw [unescapePath.eq_def]
  simp only []
  rw [if_neg hc]

theorem unescapeHost_cons (c : Char) (l : List Char) (hc : ¬ c = '%') :
    unescapeHost (c :: l) = (unescapeHost l).map (fun out => c :: out) := by
  conv_lhs => rw [unescapeHost.eq_def]
  simp only []
  rw [if_neg hc]

/-- Percent-decoding a path slice containing no `%` returns it unchanged. -/
theorem unescapePath_no_pct :
    ∀ l : List Char, '%' ∉ l → unescapePath l = some l := by
  intro l
  induction l with
  | nil => intro _; rfl
  | cons c rest ih =>
    intro h
    have hc : ¬ c = '%' := fun hcc => h (List.mem_cons.mpr (Or.inl hcc.symm))
    have hr : '%' ∉ rest := fun hm => h (List.mem_cons_of_mem _ hm)
    rw [unescapePath_cons c rest hc, ih hr]
    rfl

/-- Percent-decoding a host slice containing no `%` returns it unchanged. -/
theorem unescapeHost_no_pct :
    ∀ l : List Char, '%' ∉ l → unescapeHost l = some l := by
  intro l
  induction l with
  | nil => intro _; rfl
  | cons c rest ih =>
    intro h
    have hc : ¬ c = '%' := fun hcc => h (List.mem_cons.mpr (Or.inl hcc.symm))
    have hr : '%' ∉ rest := fun hm => h (List.mem_cons_of_mem _ hm)
    rw [unescapeHost_cons c rest hc, ih hr]
    rfl

/-- Decoding a rootful raw path yields a rootful decoded path. -/
theorem unescapePath_cons_slash (l out : List Char)
    (h : unescapePath ('/' :: l) = some out) : out.head? = some '/' := by
  rw [unescapePath_cons '/' l (by decide)] at h
  cases hin : unescapePath l with
  | none => rw [hin] at h; exact Option.noConfusion h
  | some o2 =>
    rw [hin] at h
    have h2 := Option.some.inj h
    rw [← h2]
    rfl

/-- When the URL has a scheme, the parsed path is empty or rootful. -/
theorem parseURL_path_shape (cs : List Char) (u : URL)
    (hp : parseURL cs = some u) (hs : u.scheme ≠ []) :
    u.path = [] ∨ u.path.head? = some '/' := by
  simp only [parseURL] at hp
  by_cases h2 : (getScheme cs).2.take 2 = ['/', '/']
  · rw [if_pos h2] at hp
    simp only [parseAfterAuthority] at hp
    cases hh : parseHost (hostOfAuthority
        (((getScheme cs).2.drop 2).takeWhile (fun c => ¬ endsAuthority c))) with
    | none =>
      cases hpp : unescapePath ((((getScheme cs).2.drop 2).dropWhile
          (fun c => ¬ endsAuthority c)).takeWhile (fun c => ¬ endsPath c)) with
      | none => rw [hh, hpp] at hp; exact Option.noConfusion hp
      | some o => rw [hh, hpp] at hp; exact Option.noConfusion hp
    | some hst =>
      cases hpp : unescapePath ((((getScheme cs).2.drop 2).dropWhile
          (fun c => ¬ endsAuthority c)).takeWhile (fun c => ¬ endsPath c)) with
      | none => rw [hh, hpp] at hp; exact Option.noConfusion hp
      | some out =>
        rw [hh, hpp] at hp
        have hXu : URL.mk (getScheme cs).1 hst out = u := Option.some.inj hp
        subst hXu
        show out = [] ∨ out.head? = some '/'
        cases htail : ((getScheme cs).2.drop 2).dropWhile
            (fun c => ¬ endsAuthority c) with
        | nil =>
          rw [htail] at hpp
          simp only [List.takeWhile_nil] at hpp
          exact Or.inl (Option.some.inj hpp).symm
        | cons c0 ts =>
          have hc0 := head?_dropWhile_false (p := fun c => ¬ endsAuthority c)
            ((getScheme cs).2.drop 2) c0 (by rw [htail]; rfl)
          have hc0' : endsAuthority c0 = true := by simpa using hc0
          simp only [endsAuthority, Bool.or_eq_true, decide_eq_true_eq] at hc0'
          rw [htail] at hpp
          rcases hc0' with (rfl | rfl) | rfl
          · rw [List.takeWhile_cons_of_pos (by decide)] at hpp
            exact Or.inr (unescapePath_cons_slash _ _ hpp)
          · rw [List.takeWhile_cons_of_neg (by decide)] at hpp
            exact Or.inl (Option.some.inj hpp).symm
          · rw [List.takeWhile_cons_of_neg (by decide)] at hpp
            exact Or.inl (Option.some.inj hpp).symm
  · rw [if_neg h2] at hp
    by_cases h3 : (getScheme cs).1 = [] ∨ (getScheme cs).2.head? = some '/'
    · rw [if_pos h3] at hp
      cases hpp : unescapePath
          ((getScheme cs).2.takeWhile (fun c => ¬ endsPath c)) with
      | none => rw [hpp] at hp; exact Option.noConfusion hp
      | some out =>
        rw [hpp] at hp
        have hXu : URL.mk (getScheme cs).1 [] out = u := Option.some.inj hp
        subst hXu
        have hs' : (getScheme cs).1 ≠ [] := hs
        show out = [] ∨ out.head? = some '/'
        rcases h3 with h3 | h3
        · exact absurd h3 hs'
        · cases hrest : (getScheme cs).2 with
          | nil => rw [hrest] at h3; simp at h3
          | cons r0 rs =>
            rw [hrest] at h3 hpp
            simp only [List.head?_cons, Option.some.injEq] at h3
            subst h3
            rw [List.takeWhile_cons_of_pos (by decide)] at hpp
            exact Or.inr (unescapePath_cons_slash _ _ hpp)
    · rw [if_neg h3] at hp
      have hXu : URL.mk (getScheme cs).1 [] [] = u := Option.some.inj hp
      subst hXu
      exact Or.inl rfl

theorem getScheme_mkURL (proto addr : List Char) (hp : proto ∈ allowedProto) :
    getScheme (mkURL proto addr) = (proto, '/' :: '/' :: addr) := by
  simp only [allowedProto, List.mem_cons, List.not_mem_nil, or_false] at hp
  rcases hp with rfl | rfl | rfl <;> rfl

/-- Re-parsing a normalized `proto://addr` whose address is escape-free and
authority-clean (no `%`, `@`, `/`, `?`, `#`), has a valid optional port and
is not bracketed — the tcp/udp shape `Connect` itself produced — recovers
exactly the scheme and the host. -/
theorem parseURL_mkURL_net (proto addr : List Char) (hp : proto ∈ allowedProto)
    (hclean : ∀ c ∈ addr, c ≠ '%' ∧ c ≠ '@' ∧ ¬ endsAuthority c)
    (hport : validOptionalPort (lastColonPort addr) = true)
    (hbr : addr.head? ≠ some '[') :
    parseURL (mkURL proto addr) = some ⟨proto, addr, []⟩ := by
  have hauth : addr.takeWhile (fun c => ¬ endsAuthority c) = addr := by
    rw [List.takeWhile_eq_self_iff]
    intro x hx; simpa using (hclean x hx).2.2
  have htail : addr.dropWhile (fun c => ¬ endsAuthority c) = [] := by
    rw [List.dropWhile_eq_nil_iff]
    intro x hx; simpa using (hclean x hx).2.2
  have hhost : hostOfAuthority addr = addr := by
    unfold hostOfAuthority
    rw [List.takeWhile_eq_self_iff.mpr, List.reverse_reverse]
    intro x hx
    rw [List.mem_reverse] at hx
    simpa using (hclean x hx).2.1
  have hun : unescapeHost addr = some addr :=
    unescapeHost_no_pct addr (fun hm => (hclean '%' hm).1 rfl)
  have hph : parseHost addr = some addr := by
    unfold parseHost
    rw [if_neg hbr, if_pos hport]
    exact hun
  have h1 : parseURL (mkURL proto addr) =
      parseAfterAuthority proto
        (addr.takeWhile (fun c => ¬ endsAuthority c))
        (addr.dropWhile (fun c => ¬ endsAuthority c)) := by
    unfold parseURL
    rw [getScheme_mkURL proto addr hp]
    rfl
  rw [h1, hauth, htail]
  unfold parseAfterAuthority
  rw [hhost, hph]
  rfl

/-- Re-parsing a normalized `unix://path` whose path is escape-free,
query-free and rootful (or empty) — the unix shape `Connect` itself
produced — recovers exactly the scheme and the path. -/
theorem parseURL_mkURL_unix (addr : List Char)
    (hshape : addr = [] ∨ addr.head? = some '/')
    (hclean : ∀ c ∈ addr, c ≠ '%' ∧ ¬ endsPath c) :
    parseURL (mkURL ("unix".toList) addr) = some ⟨"unix".toList, [], addr⟩ := by
  have hp : ("unix".toList) ∈ allowedProto := by decide
  rcases hshape with rfl | hhead
  · decide
  · obtain ⟨c0, ts, rfl⟩ : ∃ c0 ts, addr = c0 :: ts := by
      cases addr with
      | nil => simp at hhead
      | cons a l => exact ⟨a, l, rfl⟩
    have hc0 : c0 = '/' := by simpa using hhead
    subst hc0
    have hauth : ('/' :: ts).takeWhile (fun c => ¬ endsAuthority c) = [] := by
      rw [List.takeWhile_cons_of_neg (by decide)]
    have htail : ('/' :: ts).dropWhile (fun c => ¬ endsAuthority c)
        = '/' :: ts := by
      rw [List.dropWhile_cons_of_neg (by decide)]
    have hpath : ('/' :: ts).takeWhile (fun c => ¬ endsPath c)
        = '/' :: ts := by
      rw [List.takeWhile_eq_self_iff]
      intro x hx; simpa using (hclean x hx).2
    have hun : unescapePath ('/' :: ts) = some ('/' :: ts) :=
      unescapePath_no_pct ('/' :: ts) (fun hm => (hclean '%' hm).1 rfl)
    have h1 : parseURL (mkURL ("unix".toList) ('/' :: ts)) =
        parseAfterAuthority ("unix".toList)
          (('/' :: ts).takeWhile (fun c => ¬ endsAuthority c))
          (('/' :: ts).dropWhile (fun c => ¬ endsAuthority c)) := by
      unfold parseURL
      rw [getScheme_mkURL ("unix".toList) ('/' :: ts) hp]
      rfl
    rw [h1, hauth, htail]
    unfold parseAfterAuthority
    rw [hpath, hun]
    rfl

/-- A successful `Connect` parsed its destination and got past the scheme
check. -/
theorem connect_ok_parse (s : SyslogProxy) (url : List Char) (t : Int)
    (dial : List Char → List Char → Int → Option Nat)
    (h : (s.Connect url t dial).res = .ok) :
    ∃ u, parseURL (if url = [] then s.url else url) = some u ∧
      u.scheme ∈ allowedProto := by
  cases hp : parseURL (if url = [] then s.url else url) with
  | none =>
    exact absurd h (by simp [SyslogProxy.Connect, hp])
  | some u =>
    refine ⟨u, rfl, ?_⟩
    by_cases hs : u.scheme ∈ allowedProto
    · exact hs
    · exact absurd h (by simp [SyslogProxy.Connect, hp, if_neg hs])

/-- Once the URL parses and the scheme check passes, `Connect` dials the
parsed `(proto, addr)` target and stores exactly its normalization, whether
or not the dial succeeds. -/
theorem connect_dial_target (s : SyslogProxy) (url : List Char) (t : Int)
    (dial : List Char → List Char → Int → Option Nat) (u : URL)
    (hp : parseURL (if url = [] then s.url else url) = some u)
    (hs : u.scheme ∈ allowedProto) :
    (s.Connect url t dial).dialed =
      some (u.scheme,
        if u.scheme = "unix".toList then u.path else u.host) ∧
    (s.Connect url t dial).state.url =
      mkURL u.scheme
        (if u.scheme = "unix".toList then u.path else u.host) := by
  unfold SyslogProxy.Connect
  simp only [hp]
  rw [if_pos hs]
  cases hd : dial u.scheme
      (if u.scheme = "unix".toList then u.path else u.host)
      (if t = 0 then defaultDialTimeout else t) with
  | none => simp [hd]
  | some c => simp [hd]

/-- C10 counterexample: `Connect("unix:///a%2541")` percent-decodes once
and dials `/a%41`, storing `unix:///a%41`; the reuse `Connect("")` re-parses
the stored string, decodes *again*, and dials `/aA` — a different target, so
the claimed store/dial round-trip fails on escaped destinations. -/
theorem connect_reuse_redecodes :
    ((disconnectedProxy []).Connect ("unix:///a%2541".toList) 0
        (fun _ _ _ => some 1)).dialed
      = some ("unix".toList, "/a%41".toList) ∧
    ((disconnectedProxy []).Connect ("unix:///a%2541".toList) 0
        (fun _ _ _ => some 1)).state.url = "unix:///a%41".toList ∧
    (((disconnectedProxy []).Connect ("unix:///a%2541".toList) 0
        (fun _ _ _ => some 1)).state.Connect [] 0
        (fun _ _ _ => some 2)).dialed
      = some ("unix".toList, "/aA".toList) ∧
    ("/aA".toList : List Char) ≠ "/a%41".toList := by
  decide

/-- C10 corrected: a successful `Connect` stores the destination normalized
to `proto://addr` and dials exactly `(proto, addr)`.  A later `Connect` with
the empty destination reuses the stored value, but `net/url.Parse`
percent-decodes on every parse, so the round-trip (same target dialed, same
value stored again) is guaranteed only for escape-free addresses: a
percent-free query-free unix path, or a percent-free, `@`-free,
authority-clean host with a valid optional port and no leading bracket.
(With escapes the reuse can dial a different target —
see the counterexample.) -/
theorem connect_normalizes_and_reuses (s : SyslogProxy) (url : List Char)
    (t : Int) (dial : List Char → List Char → Int → Option Nat)
    (h : (s.Connect url t dial).res = .ok) :
    ∃ proto addr,
      proto ∈ allowedProto ∧
      (s.Connect url t dial).dialed = some (proto, addr) ∧
      (s.Connect url t dial).state.url = mkURL proto addr ∧
      ((if proto = "unix".toList
          then ∀ c ∈ addr, c ≠ '%' ∧ ¬ endsPath c
          else (∀ c ∈ addr, c ≠ '%' ∧ c ≠ '@' ∧ ¬ endsAuthority c) ∧
            validOptionalPort (lastColonPort addr) = true ∧
            addr.head? ≠ some '[') →
        ∀ (t2 : Int) (dial2 : List Char → List Char → Int → Option Nat),
          ((s.Connect url t dial).state.Connect [] t2 dial2).dialed
              = some (proto, addr) ∧
          ((s.Connect url t dial).state.Connect [] t2 dial2).state.url
              = mkURL proto addr) := by
  obtain ⟨u, hp, hs⟩ := connect_ok_parse s url t dial h
  obtain ⟨hd, hurl⟩ := connect_dial_target s url t dial u hp hs
  refine ⟨u.scheme, if u.scheme = "unix".toList then u.path else u.host,
    hs, hd, hurl, ?_⟩
  intro hplain t2 dial2
  by_cases hunix : u.scheme = "unix".toList
  · simp only [if_pos hunix] at hplain ⊢
    have hshape : u.path = [] ∨ u.path.head? = some '/' :=
      parseURL_path_shape _ u hp (by rw [hunix]; decide)
    have hrt := parseURL_mkURL_unix u.path hshape hplain
    have hp2 : parseURL (if ([] : List Char) = []
        then (s.Connect url t dial).state.url else [])
        = some ⟨"unix".toList, [], u.path⟩ := by
      rw [if_pos rfl, hurl, if_pos hunix, hunix]
      exact hrt
    have hs2 : (URL.mk ("unix".toList) [] u.path).scheme ∈ allowedProto :=
      (by decide : ("unix".toList : List Char) ∈ allowedProto)
    obtain ⟨hd2, hurl2⟩ := connect_dial_target
      ((s.Connect url t dial).state) [] t2 dial2
      ⟨"unix".toList, [], u.path⟩ hp2 hs2
    have hd2' : ((s.Connect url t dial).state.Connect [] t2 dial2).dialed
        = some ("unix".toList,
          if ("unix".toList : List Char) = "unix".toList
            then u.path else []) := hd2
    rw [if_pos rfl] at hd2'
    have hurl2' : ((s.Connect url t dial).state.Connect [] t2
          dial2).state.url
        = mkURL ("unix".toList)
          (if ("unix".toList : List Char) = "unix".toList
            then u.path else []) := hurl2
    rw [if_pos rfl] at hurl2'
    rw [hunix]
    exact ⟨hd2', hurl2'⟩
  · simp only [if_neg hunix] at hplain ⊢
    obtain ⟨hclean, hport, hbr⟩ := hplain
    have hrt := parseURL_mkURL_net u.scheme u.host hs hclean hport hbr
    have hp2 : parseURL (if ([] : List Char) = []
        then (s.Connect url t dial).state.url else [])
        = some ⟨u.scheme, u.host, []⟩ := by
      rw [if_pos rfl, hurl, if_neg hunix]
      exact hrt
    have hs2 : (URL.mk u.scheme u.host []).scheme ∈ allowedProto := hs
    obtain ⟨hd2, hurl2⟩ := connect_dial_target
      ((s.Connect url t dial).state) [] t2 dial2
      ⟨u.scheme, u.host, []⟩ hp2 hs2
    have hd2' : ((s.Connect url t dial).state.Connect [] t2 dial2).dialed
        = some (u.scheme,
          if u.scheme = "unix".toList then [] else u.host) := hd2
    rw [if_neg hunix] at hd2'
    have hurl2' : ((s.Connect url t dial).state.Connect [] t2
          dial2).state.url
        = mkURL u.scheme
          (if u.scheme = "unix".toList then [] else u.host) := hurl2
    rw [if_neg hunix] at hurl2'
    exact ⟨hd2', hurl2'⟩

/-- Witness for C10 corrected: connecting to `tcp://1.2.3.4:514` (an
escape-free host) stores exactly `tcp://1.2.3.4:514`, dials
`("tcp", "1.2.3.4:514")`, and a reconnect with the empty destination dials
the same target again. -/
theorem connect_normalizes_and_reuses_witness :
    ((disconnectedProxy []).Connect ("tcp://1.2.3.4:514".toList) 0
        (fun _ _ _ => some 1)).dialed
      = some ("tcp".toList, "1.2.3.4:514".toList) ∧
    ((disconnectedProxy []).Connect ("tcp://1.2.3.4:514".toList) 0
        (fun _ _ _ => some 1)).state.url = "tcp://1.2.3.4:514".toList ∧
    (((disconnectedProxy []).Connect ("tcp://1.2.3.4:514".toList) 0
        (fun _ _ _ => some 1)).state.Connect [] 0
        (fun _ _ _ => none)).dialed
      = some ("tcp".toList, "1.2.3.4:514".toList) := by
  obtain ⟨proto, addr, -, hd, hurl, hreuse⟩ :=
    connect_normalizes_and_reuses (disconnectedProxy [])
      ("tcp://1.2.3.4:514".toList) 0 (fun _ _ _ => some 1) (by decide)
  have hpa : proto = "tcp".toList ∧ addr = "1.2.3.4:514".toList := by
    have hd' : ((disconnectedProxy []).Connect ("tcp://1.2.3.4:514".toList) 0
        (fun _ _ _ => some 1)).dialed
        = some ("tcp".toList, "1.2.3.4:514".toList) := by decide
    rw [hd'] at hd
    simp only [Option.some.injEq, Prod.mk.injEq] at hd
    exact ⟨hd.1.symm, hd.2.symm⟩
  obtain ⟨rfl, rfl⟩ := hpa
  refine ⟨hd, by rw [hurl]; decide, ?_⟩
  exact (hreuse (by decide) 0 (fun _ _ _ => none)).1

/-! ### Claim C9: failed connect preserves connection state -/

/-- C9: whenever `Connect` fails — with the URL-parse rejection or with a
dial failure — the connection state is untouched: the previously installed
connection (if any) is still installed, nothing is closed, and a
disconnected proxy stays disconnected. -/
theorem connect_failure_preserves_conn (s : SyslogProxy) (url : List Char)
    (t : Int) (dial : List Char → List Char → Int → Option Nat)
    (h : (s.Connect url t dial).res ≠ .ok) :
    (s.Connect url t dial).state.conn = s.conn ∧
    (s.Connect url t dial).closed = [] := by
  unfold SyslogProxy.Connect at h ⊢
  cases hp : parseURL (if url = [] then s.url else url) with
  | none =>
    refine ⟨?_, ?_⟩ <;> simp [hp]
  | some u =>
    simp only [hp] at h ⊢
    by_cases hs : u.scheme ∈ allowedProto
    · rw [if_pos hs] at h ⊢
      cases hd : dial u.scheme
          (if u.scheme = "unix".toList then u.path else u.host)
          (if t = 0 then defaultDialTimeout else t) with
      | none => simp [hd]
      | some c => rw [hd] at h; simp at h
    · rw [if_neg hs] at h ⊢
      exact ⟨rfl, rfl⟩

/-- Witness for C9: connecting to the unsupported scheme `http` on a proxy
holding open connection `7` fails and leaves connection `7` installed. -/
theorem connect_failure_preserves_conn_witness :
    (({ connectedProxy [] with conn := some 7 }).Connect
        ("http://x".toList) 0 (fun _ _ _ => none)).res ≠ .ok ∧
    (({ connectedProxy [] with conn := some 7 }).Connect
        ("http://x".toList) 0 (fun _ _ _ => none)).state.conn = some 7 ∧
    (({ connectedProxy [] with conn := some 7 }).Connect
        ("http://x".toList) 0 (fun _ _ _ => none)).closed = [] := by
  refine ⟨by decide, ?_⟩
  exact connect_failure_preserves_conn _ _ 0 _ (by decide)

end SlogModel
